import Mathlib

/-!
Verification of the PyTorch3D rasterization-to-image core: a shallow
embedding of `pytorch3d/renderer/blending.py`,
`pytorch3d/renderer/mesh/rasterizer.py` and
`pytorch3d/renderer/points/compositor.py`.

Modelling conventions:
* Floating-point tensors are embedded as functions from index types
  (`Fin N → Fin H → Fin W → ...`) into the exact reals `ℝ`; machine
  arithmetic is idealised as real arithmetic.
* The per-pixel fragment dimension `K` of the source is written `K + 1`
  here, since every code path indexes slot 0 (`colors[..., 0, :]`), so
  the slot count is at least one whenever the functions run.
* Integer tensors (`pix_to_face`, point indices) are `ℤ`-valued; the
  sentinel convention (negative means "no face") is kept as in the code.
* Configuration that only drives control flow (rasterizer settings,
  compositor background colors) is embedded with computable types
  (`ℚ`, `ℕ`, `Option`, `List`) so the branch conditions evaluate.
* Python exceptions become `Except String`.
-/

namespace P3D

/-- The logistic sigmoid `torch.sigmoid x = 1 / (1 + exp (-x))`. -/
noncomputable def sigmoid (x : ℝ) : ℝ := 1 / (1 + Real.exp (-x))

/-- Blending parameters (`BlendParams` in blending.py): `sigma`, `gamma`
and a 3-channel `background_color`. -/
structure BlendParams where
  sigma : ℝ
  gamma : ℝ
  background_color : Fin 3 → ℝ

/-- Per-fragment color tensor of shape (N, H, W, K+1, 3). -/
def Colors (N H W K : ℕ) : Type :=
  Fin N → Fin H → Fin W → Fin (K + 1) → Fin 3 → ℝ

/-- Rasterization outputs (`Fragments` in rasterizer.py): `pix_to_face`
(N, H, W, K+1) integer face indices with negative sentinels, `zbuf` and
`dists` float tensors of the same shape, and barycentric coordinates. -/
structure Fragments (N H W K : ℕ) where
  pix_to_face : Fin N → Fin H → Fin W → Fin (K + 1) → ℤ
  zbuf : Fin N → Fin H → Fin W → Fin (K + 1) → ℝ
  bary_coords : Fin N → Fin H → Fin W → Fin (K + 1) → Fin 3 → ℝ
  dists : Fin N → Fin H → Fin W → Fin (K + 1) → ℝ

/-- An RGBA image tensor of shape (N, H, W, 4). -/
def Image4 (N H W : ℕ) : Type := Fin N → Fin H → Fin W → Fin 4 → ℝ

/-- Concatenation of an RGB triple with an alpha value along the channel
dimension (`torch.cat([pixel_colors, alpha], dim=-1)`). -/
def rgba (rgb : Fin 3 → ℝ) (a : ℝ) : Fin 4 → ℝ :=
  fun c => if h : (c : ℕ) < 3 then rgb ⟨c, h⟩ else a

/-- Naive blending (`hard_rgb_blend`): per pixel, the slot-0 color when
`pix_to_face[..., 0] >= 0`, the background color otherwise (the
`masked_scatter` over `is_background`), with alpha 1 everywhere. -/
noncomputable def hard_rgb_blend (colors : Colors N H W K)
    (fragments : Fragments N H W K) (blend_params : BlendParams) :
    Image4 N H W :=
  fun n h w =>
    rgba
      (fun c =>
        if fragments.pix_to_face n h w 0 < 0 then
          blend_params.background_color c
        else colors n h w 0 c)
      1

/-- Modelled from the spec: the fused C++/CUDA kernel
`_C.sigmoid_alpha_blend` called by `sigmoid_alpha_blend` is not part of
the source excerpt (only its Python wrapper is).  Spec section 4.2:
per-fragment coverage probability `p_k = sigmoid (-signed_distance_k / sigma)`
for real fragments, probability 0 for sentinel fragments, aggregated as
`alpha = 1 - prod_k (1 - p_k)`. -/
noncomputable def sigmoid_alpha_kernel (dists : Fin (K + 1) → ℝ)
    (pix_to_face : Fin (K + 1) → ℤ) (sigma : ℝ) : ℝ :=
  1 - ∏ k, (1 - if 0 ≤ pix_to_face k then sigmoid (-(dists k) / sigma) else 0)

/-- Silhouette blending (`sigmoid_alpha_blend`): RGB is the slot-0 color,
alpha comes from the sigmoid-alpha kernel on `dists`/`pix_to_face`. -/
noncomputable def sigmoid_alpha_blend (colors : Colors N H W K)
    (fragments : Fragments N H W K) (blend_params : BlendParams) :
    Image4 N H W :=
  fun n h w =>
    rgba (fun c => colors n h w 0 c)
      (sigmoid_alpha_kernel (fragments.dists n h w)
        (fragments.pix_to_face n h w) blend_params.sigma)

/-- The epsilon floor `eps = 1e-10` of `softmax_rgb_blend`. -/
noncomputable def eps : ℝ := 1e-10

/-- Mask for padded pixels (`mask = fragments.pix_to_face >= 0`), as the
0/1 real factor it is used as. -/
noncomputable def fragMask (pix_to_face : Fin (K + 1) → ℤ) (k : Fin (K + 1)) : ℝ :=
  if 0 ≤ pix_to_face k then 1 else 0

/-- Sigmoid probability map of `softmax_rgb_blend`:
`prob_map = torch.sigmoid(-fragments.dists / blend_params.sigma) * mask`. -/
noncomputable def prob_map (blend_params : BlendParams)
    (pix_to_face : Fin (K + 1) → ℤ) (dists : Fin (K + 1) → ℝ)
    (k : Fin (K + 1)) : ℝ :=
  sigmoid (-(dists k) / blend_params.sigma) * fragMask pix_to_face k

/-- Cumulative product `alpha = torch.prod(1.0 - prob_map, dim=-1)` of
`softmax_rgb_blend` (the output alpha channel is `1 - alpha`). -/
noncomputable def alphaProd (blend_params : BlendParams)
    (pix_to_face : Fin (K + 1) → ℤ) (dists : Fin (K + 1) → ℝ) : ℝ :=
  ∏ k, (1 - prob_map blend_params pix_to_face dists k)

/-- Depth weight `z_inv = (zfar - fragments.zbuf) / (zfar - znear) * mask`. -/
noncomputable def z_inv (znear zfar : ℝ) (pix_to_face : Fin (K + 1) → ℤ)
    (zbuf : Fin (K + 1) → ℝ) (k : Fin (K + 1)) : ℝ :=
  (zfar - zbuf k) / (zfar - znear) * fragMask pix_to_face k

/-- `z_inv_max = torch.max(z_inv, dim=-1).values.clamp(min=eps)`. -/
noncomputable def z_inv_max (znear zfar : ℝ) (pix_to_face : Fin (K + 1) → ℤ)
    (zbuf : Fin (K + 1) → ℝ) : ℝ :=
  max (Finset.univ.sup' Finset.univ_nonempty (z_inv znear zfar pix_to_face zbuf)) eps

/-- Un-normalized fragment weights
`weights_num = prob_map * torch.exp((z_inv - z_inv_max) / blend_params.gamma)`. -/
noncomputable def weights_num (blend_params : BlendParams) (znear zfar : ℝ)
    (pix_to_face : Fin (K + 1) → ℤ) (zbuf dists : Fin (K + 1) → ℝ)
    (k : Fin (K + 1)) : ℝ :=
  prob_map blend_params pix_to_face dists k *
    Real.exp ((z_inv znear zfar pix_to_face zbuf k -
      z_inv_max znear zfar pix_to_face zbuf) / blend_params.gamma)

/-- Background weight
`delta = torch.exp((eps - z_inv_max) / blend_params.gamma).clamp(min=eps)`. -/
noncomputable def delta (blend_params : BlendParams) (znear zfar : ℝ)
    (pix_to_face : Fin (K + 1) → ℤ) (zbuf : Fin (K + 1) → ℝ) : ℝ :=
  max (Real.exp ((eps - z_inv_max znear zfar pix_to_face zbuf) / blend_params.gamma)) eps

/-- Normalizer `denom = weights_num.sum(dim=-1) + delta`. -/
noncomputable def denom (blend_params : BlendParams) (znear zfar : ℝ)
    (pix_to_face : Fin (K + 1) → ℤ) (zbuf dists : Fin (K + 1) → ℝ) : ℝ :=
  (∑ k, weights_num blend_params znear zfar pix_to_face zbuf dists k) +
    delta blend_params znear zfar pix_to_face zbuf

/-- Softmax blending (`softmax_rgb_blend`): per pixel,
RGB = `((weights_num[..., None] * colors).sum(-2) + delta * background) / denom`
and alpha channel = `1 - alpha` with `alpha` the cumulative product above. -/
noncomputable def softmax_rgb_blend (colors : Colors N H W K)
    (fragments : Fragments N H W K) (blend_params : BlendParams)
    (znear zfar : ℝ) : Image4 N H W :=
  fun n h w =>
    rgba
      (fun c =>
        ((∑ k, weights_num blend_params znear zfar (fragments.pix_to_face n h w)
            (fragments.zbuf n h w) (fragments.dists n h w) k * colors n h w k c) +
          delta blend_params znear zfar (fragments.pix_to_face n h w)
            (fragments.zbuf n h w) * blend_params.background_color c) /
        denom blend_params znear zfar (fragments.pix_to_face n h w)
          (fragments.zbuf n h w) (fragments.dists n h w))
      (1 - alphaProd blend_params (fragments.pix_to_face n h w)
        (fragments.dists n h w))

/-! Rasterizer facade (`pytorch3d/renderer/mesh/rasterizer.py`).
Vertex tensors are functions `I → Fin 3 → ℚ` over an abstract vertex
index type `I`; camera transforms are abstract functions on them. -/

/-- Rasterization settings (`RasterizationSettings` in rasterizer.py). -/
structure RasterizationSettings where
  image_size : ℕ
  blur_radius : ℚ
  faces_per_pixel : ℕ
  bin_size : Option ℕ
  max_faces_per_bin : Option ℕ
  perspective_correct : Bool
  clip_barycentric_coords : Option Bool
  cull_backfaces : Bool

/-- A camera batch: its length (`len(cameras)`) and the two
`transform_points` stages used by `MeshRasterizer.transform`. -/
structure Cameras (I : Type) where
  count : ℕ
  world_to_view : (I → Fin 3 → ℚ) → (I → Fin 3 → ℚ)
  projection : (I → Fin 3 → ℚ) → (I → Fin 3 → ℚ)

/-- A mesh batch: its length (`len(meshes_world)`) and the padded vertex
tensor (`verts_padded()`). -/
structure Meshes (I : Type) where
  count : ℕ
  verts_padded : I → Fin 3 → ℚ

/-- `meshes.update_padded(new_verts_padded)`: same batch with new vertices. -/
def Meshes.update_padded (m : Meshes I) (v : I → Fin 3 → ℚ) : Meshes I :=
  { m with verts_padded := v }

/-- The error message `"Wrong number (%r) of cameras for %r meshes"`
formatted with the two counts. -/
def wrongNumberMsg (ncam nmesh : ℕ) : String :=
  "Wrong number (" ++ toString ncam ++ ") of cameras for " ++
    toString nmesh ++ " meshes"

/-- `MeshRasterizer.transform`: reject a missing camera, then reject a
camera count that is neither 1 nor the mesh count, then transform the
vertices world → view → screen, restoring the view-space z coordinate. -/
def MeshRasterizer.transform (cameras : Option (Cameras I))
    (meshes_world : Meshes I) : Except String (Meshes I) :=
  match cameras with
  | none =>
      Except.error
        "Cameras must be specified either at initialization or in the forward pass of MeshRasterizer"
  | some cams =>
      if cams.count ≠ 1 ∧ cams.count ≠ meshes_world.count then
        Except.error (wrongNumberMsg cams.count meshes_world.count)
      else
        let verts_world := meshes_world.verts_padded
        let verts_view := cams.world_to_view verts_world
        let verts_screen := cams.projection verts_view
        let verts_screen2 := fun i c =>
          if c = (2 : Fin 3) then verts_view i 2 else verts_screen i c
        Except.ok (meshes_world.update_padded verts_screen2)

/-- Resolution of the optional `clip_barycentric_coords` flag in
`MeshRasterizer.forward`: an explicit setting wins; unset means
`blur_radius > 0.0`. -/
def resolve_clip_barycentric_coords (rs : RasterizationSettings) : Bool :=
  match rs.clip_barycentric_coords with
  | some b => b
  | none => decide (rs.blur_radius > 0)

/-- The argument record `MeshRasterizer.forward` passes to the external
`rasterize_meshes` primitive (which is outside this core). -/
structure RasterizeMeshesArgs (I : Type) where
  meshes_screen : Meshes I
  image_size : ℕ
  blur_radius : ℚ
  faces_per_pixel : ℕ
  bin_size : Option ℕ
  max_faces_per_bin : Option ℕ
  perspective_correct : Bool
  clip_barycentric_coords : Bool
  cull_backfaces : Bool

/-- `MeshRasterizer.forward` up to the boundary with the external
`rasterize_meshes` primitive: transform the meshes, resolve the optional
clip flag, and assemble the primitive's arguments. -/
def MeshRasterizer.forward (cameras : Option (Cameras I))
    (meshes_world : Meshes I) (raster_settings : RasterizationSettings) :
    Except String (RasterizeMeshesArgs I) :=
  (MeshRasterizer.transform cameras meshes_world).map fun meshes_screen =>
    { meshes_screen := meshes_screen
      image_size := raster_settings.image_size
      blur_radius := raster_settings.blur_radius
      faces_per_pixel := raster_settings.faces_per_pixel
      bin_size := raster_settings.bin_size
      max_faces_per_bin := raster_settings.max_faces_per_bin
      perspective_correct := raster_settings.perspective_correct
      clip_barycentric_coords := resolve_clip_barycentric_coords raster_settings
      cull_backfaces := raster_settings.cull_backfaces }

/-! Point compositors (`pytorch3d/renderer/points/compositor.py`).
Accumulated point images are (N, 4, H, W) tensors over `ℚ`; the
background color argument carries an explicit shape so that the shape
validation of `_add_background_color_to_images` can be stated. -/

/-- A background-color tensor: its shape and flat data
(`background_color` after the `new_tensor` conversion). -/
structure BGTensor where
  shape : List ℕ
  data : List ℚ

/-- An accumulated point image of shape (N, C, H, W). -/
def PointImages (N C H W : ℕ) : Type := Fin N → Fin C → Fin H → Fin W → ℚ

/-- Point index tensor (`pix_idxs`) of shape (N, P+1, H, W); negative
entries mean "no point at this slot". -/
def PixIdxs (N P H W : ℕ) : Type := Fin N → Fin (P + 1) → Fin H → Fin W → ℤ

/-- `_add_background_color_to_images`: when the background color is not a
1-dimensional tensor of length 3 or 4, warn and return the images
unchanged; otherwise extend a length-3 color with alpha 1 and scatter it
into the pixels whose nearest-point slot is a sentinel.  The boolean
result records whether the warning was emitted. -/
def _add_background_color_to_images (pix_idxs : PixIdxs N P H W)
    (images : PointImages N 4 H W) (background_color : BGTensor) :
    Bool × PointImages N 4 H W :=
  if background_color.shape.length ≠ 1 ∨
      (background_color.shape.headD 0 ≠ 3 ∧ background_color.shape.headD 0 ≠ 4) then
    (true, images)
  else
    let bg : List ℚ :=
      if background_color.shape.headD 0 = 3 then background_color.data ++ [1]
      else background_color.data
    (false,
      fun n c h w =>
        if pix_idxs n 0 h w < 0 then bg.getD c 0 else images n c h w)

/-- `AlphaCompositor.forward`: run the external `alpha_composite`
primitive (passed as a function), then inject the background color when
one is configured (the image has 4 feature channels here). -/
def AlphaCompositor.forward {α β : Type}
    (alpha_composite : PixIdxs N P H W → α → β → PointImages N 4 H W)
    (background_color : Option BGTensor) (fragments : PixIdxs N P H W)
    (alphas : α) (ptclds : β) : PointImages N 4 H W :=
  let images := alpha_composite fragments alphas ptclds
  match background_color with
  | some bg => (_add_background_color_to_images fragments images bg).2
  | none => images

/-- `NormWeightedCompositor.forward`: run the external
`norm_weighted_sum` primitive (passed as a function), then inject the
background color when one is configured. -/
def NormWeightedCompositor.forward {α β : Type}
    (norm_weighted_sum : PixIdxs N P H W → α → β → PointImages N 4 H W)
    (background_color : Option BGTensor) (fragments : PixIdxs N P H W)
    (alphas : α) (ptclds : β) : PointImages N 4 H W :=
  let images := norm_weighted_sum fragments alphas ptclds
  match background_color with
  | some bg => (_add_background_color_to_images fragments images bg).2
  | none => images

/-! Helper lemmas. -/

lemma rgba_castSucc (rgb : Fin 3 → ℝ) (a : ℝ) (c : Fin 3) :
    rgba rgb a c.castSucc = rgb c := by
  have h : ((c.castSucc : Fin 4) : ℕ) < 3 := c.isLt
  simp only [rgba, dif_pos h]
  congr 1

lemma rgba_alpha (rgb : Fin 3 → ℝ) (a : ℝ) : rgba rgb a 3 = a := rfl

lemma eps_pos : 0 < eps := by norm_num [eps]

lemma eps_le_one : eps ≤ 1 := by norm_num [eps]

lemma sigmoid_nonneg (x : ℝ) : 0 ≤ sigmoid x := by
  unfold sigmoid
  positivity

lemma fragMask_nonneg (pix_to_face : Fin (K + 1) → ℤ) (k : Fin (K + 1)) :
    0 ≤ fragMask pix_to_face k := by
  unfold fragMask
  split <;> norm_num

lemma prob_map_nonneg (bp : BlendParams) (pix_to_face : Fin (K + 1) → ℤ)
    (dists : Fin (K + 1) → ℝ) (k : Fin (K + 1)) :
    0 ≤ prob_map bp pix_to_face dists k :=
  mul_nonneg (sigmoid_nonneg _) (fragMask_nonneg _ _)

lemma weights_num_nonneg (bp : BlendParams) (znear zfar : ℝ)
    (pix_to_face : Fin (K + 1) → ℤ) (zbuf dists : Fin (K + 1) → ℝ)
    (k : Fin (K + 1)) : 0 ≤ weights_num bp znear zfar pix_to_face zbuf dists k :=
  mul_nonneg (prob_map_nonneg _ _ _ _) (Real.exp_pos _).le

lemma eps_le_delta (bp : BlendParams) (znear zfar : ℝ)
    (pix_to_face : Fin (K + 1) → ℤ) (zbuf : Fin (K + 1) → ℝ) :
    eps ≤ delta bp znear zfar pix_to_face zbuf :=
  le_max_right _ _

lemma delta_pos (bp : BlendParams) (znear zfar : ℝ)
    (pix_to_face : Fin (K + 1) → ℤ) (zbuf : Fin (K + 1) → ℝ) :
    0 < delta bp znear zfar pix_to_face zbuf :=
  lt_of_lt_of_le eps_pos (eps_le_delta bp znear zfar pix_to_face zbuf)

lemma denom_pos (bp : BlendParams) (znear zfar : ℝ)
    (pix_to_face : Fin (K + 1) → ℤ) (zbuf dists : Fin (K + 1) → ℝ) :
    0 < denom bp znear zfar pix_to_face zbuf dists :=
  add_pos_of_nonneg_of_pos
    (Finset.sum_nonneg fun k _ => weights_num_nonneg bp znear zfar pix_to_face zbuf dists k)
    (delta_pos bp znear zfar pix_to_face zbuf)

/-! Claim theorems. -/

/-- C4: `hard_rgb_blend` produces, at every pixel, the slot-0 fragment
color when `pix_to_face` at slot 0 is non-negative and the background
color when it is negative, and alpha 1 in both cases. -/
theorem C4_hard_rgb_blend (colors : Colors N H W K) (fragments : Fragments N H W K)
    (blend_params : BlendParams) (n : Fin N) (h : Fin H) (w : Fin W) :
    (∀ c : Fin 3,
      hard_rgb_blend colors fragments blend_params n h w c.castSucc =
        if fragments.pix_to_face n h w 0 < 0 then blend_params.background_color c
        else colors n h w 0 c) ∧
    hard_rgb_blend colors fragments blend_params n h w 3 = 1 := by
  constructor
  · intro c
    simp only [hard_rgb_blend, rgba_castSucc]
  · simp only [hard_rgb_blend, rgba_alpha]

/-- C7: `sigmoid_alpha_blend` never substitutes the background color: the
RGB channels of every pixel are exactly the slot-0 entry of the color
tensor, whatever the `pix_to_face` values (including all-sentinel pixels). -/
theorem C7_sigmoid_alpha_rgb (colors : Colors N H W K) (fragments : Fragments N H W K)
    (blend_params : BlendParams) (n : Fin N) (h : Fin H) (w : Fin W)
    (c : Fin 3) :
    sigmoid_alpha_blend colors fragments blend_params n h w c.castSucc =
      colors n h w 0 c := by
  simp only [sigmoid_alpha_blend, rgba_castSucc]

/-- C1: the alpha channel of `softmax_rgb_blend` at every pixel equals
`1 - prod_k (1 - prob_k)` where `prob_k = sigmoid (-dists_k / sigma)` at
slots with `pix_to_face_k >= 0` and `prob_k = 0` at sentinel slots. -/
theorem C1_softmax_alpha (colors : Colors N H W K) (fragments : Fragments N H W K)
    (blend_params : BlendParams) (znear zfar : ℝ) (n : Fin N) (h : Fin H)
    (w : Fin W) :
    softmax_rgb_blend colors fragments blend_params znear zfar n h w 3 =
      1 - ∏ k, (1 -
        if 0 ≤ fragments.pix_to_face n h w k then
          sigmoid (-(fragments.dists n h w k) / blend_params.sigma)
        else 0) := by
  simp only [softmax_rgb_blend, rgba_alpha, alphaProd]
  congr 1
  refine Finset.prod_congr rfl fun k _ => ?_
  unfold prob_map fragMask
  split <;> ring

/-- C6: the final division of `softmax_rgb_blend` is well-defined: the
background weight `delta` is clamped to at least `eps = 1e-10`, every
un-normalized weight is non-negative, and the denominator
`denom = sum weights + delta` is strictly positive (hence never zero). -/
theorem C6_softmax_denom_safe (blend_params : BlendParams) (znear zfar : ℝ)
    (fragments : Fragments N H W K) (n : Fin N) (h : Fin H) (w : Fin W) :
    0 < eps ∧
    eps ≤ delta blend_params znear zfar (fragments.pix_to_face n h w)
      (fragments.zbuf n h w) ∧
    (∀ k, 0 ≤ weights_num blend_params znear zfar (fragments.pix_to_face n h w)
      (fragments.zbuf n h w) (fragments.dists n h w) k) ∧
    0 < denom blend_params znear zfar (fragments.pix_to_face n h w)
      (fragments.zbuf n h w) (fragments.dists n h w) ∧
    denom blend_params znear zfar (fragments.pix_to_face n h w)
      (fragments.zbuf n h w) (fragments.dists n h w) ≠ 0 :=
  ⟨eps_pos, eps_le_delta _ _ _ _ _,
    fun k => weights_num_nonneg _ _ _ _ _ _ k,
    denom_pos _ _ _ _ _ _, (denom_pos _ _ _ _ _ _).ne'⟩

/-- C3: every RGB channel output by `softmax_rgb_blend` lies between the
minimum and the maximum of that channel over the pixel's fragment colors
and the background color (the output is a convex combination of them). -/
theorem C3_softmax_convex (colors : Colors N H W K) (fragments : Fragments N H W K)
    (blend_params : BlendParams) (znear zfar : ℝ) (n : Fin N) (h : Fin H)
    (w : Fin W) (c : Fin 3) :
    min (Finset.univ.inf' Finset.univ_nonempty fun k => colors n h w k c)
        (blend_params.background_color c) ≤
      softmax_rgb_blend colors fragments blend_params znear zfar n h w c.castSucc ∧
    softmax_rgb_blend colors fragments blend_params znear zfar n h w c.castSucc ≤
      max (Finset.univ.sup' Finset.univ_nonempty fun k => colors n h w k c)
        (blend_params.background_color c) := by
  have hD := denom_pos blend_params znear zfar (fragments.pix_to_face n h w)
    (fragments.zbuf n h w) (fragments.dists n h w)
  simp only [softmax_rgb_blend, rgba_castSucc]
  constructor
  · rw [le_div_iff₀ hD]
    calc min (Finset.univ.inf' Finset.univ_nonempty fun k => colors n h w k c)
          (blend_params.background_color c) *
          denom blend_params znear zfar (fragments.pix_to_face n h w)
            (fragments.zbuf n h w) (fragments.dists n h w) =
        (∑ k, min (Finset.univ.inf' Finset.univ_nonempty fun j => colors n h w j c)
          (blend_params.background_color c) *
          weights_num blend_params znear zfar (fragments.pix_to_face n h w)
            (fragments.zbuf n h w) (fragments.dists n h w) k) +
        min (Finset.univ.inf' Finset.univ_nonempty fun j => colors n h w j c)
          (blend_params.background_color c) *
          delta blend_params znear zfar (fragments.pix_to_face n h w)
            (fragments.zbuf n h w) := by
          rw [denom, mul_add, Finset.mul_sum]
      _ ≤ (∑ k, weights_num blend_params znear zfar (fragments.pix_to_face n h w)
            (fragments.zbuf n h w) (fragments.dists n h w) k * colors n h w k c) +
          delta blend_params znear zfar (fragments.pix_to_face n h w)
            (fragments.zbuf n h w) * blend_params.background_color c := by
          refine add_le_add (Finset.sum_le_sum fun k _ => ?_) ?_
          · rw [mul_comm]
            exact mul_le_mul_of_nonneg_left
              (le_trans (min_le_left _ _) (Finset.inf'_le _ (Finset.mem_univ k)))
              (weights_num_nonneg _ _ _ _ _ _ k)
          · rw [mul_comm]
            exact mul_le_mul_of_nonneg_left (min_le_right _ _)
              (delta_pos _ _ _ _ _).le
  · rw [div_le_iff₀ hD]
    calc (∑ k, weights_num blend_params znear zfar (fragments.pix_to_face n h w)
          (fragments.zbuf n h w) (fragments.dists n h w) k * colors n h w k c) +
        delta blend_params znear zfar (fragments.pix_to_face n h w)
          (fragments.zbuf n h w) * blend_params.background_color c ≤
        (∑ k, weights_num blend_params znear zfar (fragments.pix_to_face n h w)
          (fragments.zbuf n h w) (fragments.dists n h w) k *
          max (Finset.univ.sup' Finset.univ_nonempty fun j => colors n h w j c)
            (blend_params.background_color c)) +
        delta blend_params znear zfar (fragments.pix_to_face n h w)
          (fragments.zbuf n h w) *
          max (Finset.univ.sup' Finset.univ_nonempty fun j => colors n h w j c)
            (blend_params.background_color c) := by
          refine add_le_add (Finset.sum_le_sum fun k _ => ?_) ?_
          · exact mul_le_mul_of_nonneg_left
              (le_trans (Finset.le_sup' (fun j => colors n h w j c) (Finset.mem_univ k))
                (le_max_left _ _))
              (weights_num_nonneg _ _ _ _ _ _ k)
          · exact mul_le_mul_of_nonneg_left (le_max_right _ _)
              (delta_pos _ _ _ _ _).le
      _ = max (Finset.univ.sup' Finset.univ_nonempty fun j => colors n h w j c)
            (blend_params.background_color c) *
          denom blend_params znear zfar (fragments.pix_to_face n h w)
            (fragments.zbuf n h w) (fragments.dists n h w) := by
          rw [denom, mul_add, Finset.mul_sum]
          simp only [mul_comm]

/-- C2: at a pixel whose slots are all sentinels, `hard_rgb_blend`
outputs the background color with alpha 1, `softmax_rgb_blend` outputs
exactly the background color with alpha 0, and `sigmoid_alpha_blend`
outputs alpha 0. -/
theorem C2_empty_pixel (colors : Colors N H W K) (fragments : Fragments N H W K)
    (blend_params : BlendParams) (znear zfar : ℝ) (n : Fin N) (h : Fin H)
    (w : Fin W) (hs : ∀ k, fragments.pix_to_face n h w k < 0) :
    (∀ c : Fin 3, hard_rgb_blend colors fragments blend_params n h w c.castSucc =
      blend_params.background_color c) ∧
    hard_rgb_blend colors fragments blend_params n h w 3 = 1 ∧
    (∀ c : Fin 3,
      softmax_rgb_blend colors fragments blend_params znear zfar n h w c.castSucc =
        blend_params.background_color c) ∧
    softmax_rgb_blend colors fragments blend_params znear zfar n h w 3 = 0 ∧
    sigmoid_alpha_blend colors fragments blend_params n h w 3 = 0 := by
  have hm : ∀ k, fragMask (fragments.pix_to_face n h w) k = 0 := by
    intro k
    unfold fragMask
    rw [if_neg (not_le.mpr (hs k))]
  have hprob : ∀ k, prob_map blend_params (fragments.pix_to_face n h w)
      (fragments.dists n h w) k = 0 := by
    intro k
    unfold prob_map
    rw [hm k, mul_zero]
  have hz : ∀ k, z_inv znear zfar (fragments.pix_to_face n h w)
      (fragments.zbuf n h w) k = 0 := by
    intro k
    unfold z_inv
    rw [hm k, mul_zero]
  have hzm : z_inv_max znear zfar (fragments.pix_to_face n h w)
      (fragments.zbuf n h w) = eps := by
    unfold z_inv_max
    rw [show z_inv znear zfar (fragments.pix_to_face n h w) (fragments.zbuf n h w) =
      fun _ => (0 : ℝ) from funext hz]
    rw [Finset.sup'_const _ (0 : ℝ), max_eq_right eps_pos.le]
  have hdelta : delta blend_params znear zfar (fragments.pix_to_face n h w)
      (fragments.zbuf n h w) = 1 := by
    unfold delta
    rw [hzm, sub_self, zero_div, Real.exp_zero, max_eq_left eps_le_one]
  have hw : ∀ k, weights_num blend_params znear zfar (fragments.pix_to_face n h w)
      (fragments.zbuf n h w) (fragments.dists n h w) k = 0 := by
    intro k
    unfold weights_num
    rw [hprob k, zero_mul]
  have hdenom : denom blend_params znear zfar (fragments.pix_to_face n h w)
      (fragments.zbuf n h w) (fragments.dists n h w) = 1 := by
    unfold denom
    rw [hdelta]
    simp [hw]
  have halpha : alphaProd blend_params (fragments.pix_to_face n h w)
      (fragments.dists n h w) = 1 := by
    unfold alphaProd
    simp [hprob]
  refine ⟨?_, ?_, ?_, ?_, ?_⟩
  · intro c
    simp only [hard_rgb_blend, rgba_castSucc]
    rw [if_pos (hs 0)]
  · simp only [hard_rgb_blend, rgba_alpha]
  · intro c
    simp only [softmax_rgb_blend, rgba_castSucc]
    rw [hdenom, hdelta]
    simp [hw]
  · simp only [softmax_rgb_blend, rgba_alpha]
    rw [halpha]
    ring
  · simp only [sigmoid_alpha_blend, rgba_alpha]
    unfold sigmoid_alpha_kernel
    have : ∀ k, (if 0 ≤ fragments.pix_to_face n h w k then
        sigmoid (-(fragments.dists n h w k) / blend_params.sigma) else 0) = (0 : ℝ) := by
      intro k
      rw [if_neg (not_le.mpr (hs k))]
    simp [this]

/-- Witness for C2: a concrete 1×1×1 image with two all-sentinel slots. -/
theorem C2_empty_pixel_witness :
    (∀ k : Fin 2, (fun (_ : Fin 1) (_ : Fin 1) (_ : Fin 1) (_ : Fin 2) => (-1 : ℤ)) 0 0 0 k < 0) ∧
    ((∀ c : Fin 3,
      hard_rgb_blend (N := 1) (H := 1) (W := 1) (K := 1) (fun _ _ _ _ _ => (0 : ℝ))
        ⟨fun _ _ _ _ => -1, fun _ _ _ _ => 0, fun _ _ _ _ _ => 0, fun _ _ _ _ => 0⟩
        ⟨1, 1, fun _ => 1 / 2⟩ 0 0 0 c.castSucc = (fun _ : Fin 3 => (1 : ℝ) / 2) c) ∧
    hard_rgb_blend (N := 1) (H := 1) (W := 1) (K := 1) (fun _ _ _ _ _ => (0 : ℝ))
        ⟨fun _ _ _ _ => -1, fun _ _ _ _ => 0, fun _ _ _ _ _ => 0, fun _ _ _ _ => 0⟩
        ⟨1, 1, fun _ => 1 / 2⟩ 0 0 0 3 = 1 ∧
    (∀ c : Fin 3,
      softmax_rgb_blend (N := 1) (H := 1) (W := 1) (K := 1) (fun _ _ _ _ _ => (0 : ℝ))
        ⟨fun _ _ _ _ => -1, fun _ _ _ _ => 0, fun _ _ _ _ _ => 0, fun _ _ _ _ => 0⟩
        ⟨1, 1, fun _ => 1 / 2⟩ 2 10 0 0 0 c.castSucc = (fun _ : Fin 3 => (1 : ℝ) / 2) c) ∧
    softmax_rgb_blend (N := 1) (H := 1) (W := 1) (K := 1) (fun _ _ _ _ _ => (0 : ℝ))
        ⟨fun _ _ _ _ => -1, fun _ _ _ _ => 0, fun _ _ _ _ _ => 0, fun _ _ _ _ => 0⟩
        ⟨1, 1, fun _ => 1 / 2⟩ 2 10 0 0 0 3 = 0 ∧
    sigmoid_alpha_blend (N := 1) (H := 1) (W := 1) (K := 1) (fun _ _ _ _ _ => (0 : ℝ))
        ⟨fun _ _ _ _ => -1, fun _ _ _ _ => 0, fun _ _ _ _ _ => 0, fun _ _ _ _ => 0⟩
        ⟨1, 1, fun _ => 1 / 2⟩ 0 0 0 3 = 0) :=
  ⟨by decide,
    C2_empty_pixel (N := 1) (H := 1) (W := 1) (K := 1) (fun _ _ _ _ _ => (0 : ℝ))
      ⟨fun _ _ _ _ => -1, fun _ _ _ _ => 0, fun _ _ _ _ _ => 0, fun _ _ _ _ => 0⟩
      ⟨1, 1, fun _ => 1 / 2⟩ 2 10 0 0 0 (by decide)⟩

/-- C8: with a camera count that is neither 1 nor the mesh count,
`MeshRasterizer.transform` fails with the descriptive count-mismatch
error, and it does so before any tensor work: the result is the same
error for every vertex tensor and every camera transform function. -/
theorem C8_camera_count_mismatch {I : Type} (cams : Cameras I) (meshes_world : Meshes I)
    (h1 : cams.count ≠ 1) (h2 : cams.count ≠ meshes_world.count) :
    MeshRasterizer.transform (some cams) meshes_world =
      Except.error (wrongNumberMsg cams.count meshes_world.count) ∧
    ∀ (verts : I → Fin 3 → ℚ)
      (w2v proj : (I → Fin 3 → ℚ) → (I → Fin 3 → ℚ)),
      MeshRasterizer.transform
        (some { count := cams.count, world_to_view := w2v, projection := proj })
        { count := meshes_world.count, verts_padded := verts } =
        Except.error (wrongNumberMsg cams.count meshes_world.count) := by
  constructor
  · simp [MeshRasterizer.transform, h1, h2]
  · intro verts w2v proj
    simp [MeshRasterizer.transform, h1, h2]

/-- Witness for C8: 2 cameras and 3 meshes are rejected. -/
theorem C8_camera_count_mismatch_witness :
    ((2 : ℕ) ≠ 1 ∧ (2 : ℕ) ≠ 3) ∧
    MeshRasterizer.transform (I := Unit) (some ⟨2, id, id⟩) ⟨3, fun _ _ => 0⟩ =
      Except.error (wrongNumberMsg 2 3) :=
  ⟨by decide,
    (C8_camera_count_mismatch (I := Unit) ⟨2, id, id⟩ ⟨3, fun _ _ => 0⟩
      (by decide) (by decide)).1⟩

/-- C9: a background color that is not a 1-dimensional vector of length
3 or 4 makes `_add_background_color_to_images` warn and return the
accumulated image unchanged, and both point compositors then return the
accumulation primitive's output untouched; nothing is raised. -/
theorem C9_invalid_background_identity (pix_idxs : PixIdxs N P H W) (bg : BGTensor)
    (hbad : bg.shape.length ≠ 1 ∨ (bg.shape.headD 0 ≠ 3 ∧ bg.shape.headD 0 ≠ 4)) :
    (∀ images : PointImages N 4 H W,
      _add_background_color_to_images pix_idxs images bg = (true, images)) ∧
    (∀ {α β : Type} (alpha_composite : PixIdxs N P H W → α → β → PointImages N 4 H W)
      (alphas : α) (ptclds : β),
      AlphaCompositor.forward alpha_composite (some bg) pix_idxs alphas ptclds =
        alpha_composite pix_idxs alphas ptclds) ∧
    (∀ {α β : Type} (norm_weighted_sum : PixIdxs N P H W → α → β → PointImages N 4 H W)
      (alphas : α) (ptclds : β),
      NormWeightedCompositor.forward norm_weighted_sum (some bg) pix_idxs alphas ptclds =
        norm_weighted_sum pix_idxs alphas ptclds) := by
  have hgen : ∀ images : PointImages N 4 H W,
      _add_background_color_to_images pix_idxs images bg = (true, images) := by
    intro images
    unfold _add_background_color_to_images
    rw [if_pos hbad]
  refine ⟨hgen, ?_, ?_⟩
  · intro α β alpha_composite alphas ptclds
    simp [AlphaCompositor.forward, hgen]
  · intro α β norm_weighted_sum alphas ptclds
    simp [NormWeightedCompositor.forward, hgen]

/-- Witness for C9: a 5-element background color is warned about and the
image passes through unchanged. -/
theorem C9_invalid_background_identity_witness :
    (([5] : List ℕ).length ≠ 1 ∨
      (([5] : List ℕ).headD 0 ≠ 3 ∧ ([5] : List ℕ).headD 0 ≠ 4)) ∧
    _add_background_color_to_images (N := 1) (P := 0) (H := 1) (W := 1)
      (fun _ _ _ _ => -1) (fun _ _ _ _ => 0) ⟨[5], [0, 0, 0, 0, 0]⟩ =
      (true, fun _ _ _ _ => 0) :=
  ⟨by decide,
    (C9_invalid_background_identity (N := 1) (P := 0) (H := 1) (W := 1)
      (fun _ _ _ _ => -1) ⟨[5], [0, 0, 0, 0, 0]⟩ (by decide)).1 (fun _ _ _ _ => 0)⟩

/-- C10: an unset `clip_barycentric_coords` resolves to
`blur_radius > 0`, and that resolved value is what
`MeshRasterizer.forward` hands to the rasterization primitive. -/
theorem C10_clip_default_rule (rs : RasterizationSettings)
    (hnone : rs.clip_barycentric_coords = none) :
    resolve_clip_barycentric_coords rs = decide (rs.blur_radius > 0) ∧
    ∀ {I : Type} (cameras : Option (Cameras I)) (meshes_world : Meshes I)
      (args : RasterizeMeshesArgs I),
      MeshRasterizer.forward cameras meshes_world rs = Except.ok args →
      args.clip_barycentric_coords = decide (rs.blur_radius > 0) := by
  have h1 : resolve_clip_barycentric_coords rs = decide (rs.blur_radius > 0) := by
    unfold resolve_clip_barycentric_coords
    rw [hnone]
  refine ⟨h1, ?_⟩
  intro I cameras meshes_world args hok
  unfold MeshRasterizer.forward at hok
  cases htr : MeshRasterizer.transform cameras meshes_world with
  | error e =>
      rw [htr] at hok
      simp [Except.map] at hok
  | ok ms =>
      rw [htr] at hok
      simp only [Except.map, Except.ok.injEq] at hok
      rw [← hok]
      exact h1

/-- Witness for C10: unset clip flag with positive blur radius resolves
to `blur_radius > 0`. -/
theorem C10_clip_default_rule_witness :
    (⟨256, 1, 1, none, none, false, none, false⟩ : RasterizationSettings).clip_barycentric_coords
        = none ∧
    resolve_clip_barycentric_coords ⟨256, 1, 1, none, none, false, none, false⟩ =
      decide ((⟨256, 1, 1, none, none, false, none, false⟩ :
        RasterizationSettings).blur_radius > 0) :=
  ⟨rfl, (C10_clip_default_rule _ rfl).1⟩

lemma sup'_perm (σ : Equiv.Perm (Fin (K + 1))) (f : Fin (K + 1) → ℝ) :
    Finset.univ.sup' Finset.univ_nonempty (fun k => f (σ k)) =
      Finset.univ.sup' Finset.univ_nonempty f := by
  apply le_antisymm
  · exact Finset.sup'_le _ _ fun b _ => Finset.le_sup' f (Finset.mem_univ (σ b))
  · refine Finset.sup'_le _ _ fun b _ => ?_
    have hb : f b = (fun k => f (σ k)) (σ.symm b) := by simp
    rw [hb]
    exact Finset.le_sup' (fun k => f (σ k)) (Finset.mem_univ (σ.symm b))

/-- C5 counterexample: permuting the two slots of a pixel's fragment
record and its colors does change the output of `sigmoid_alpha_blend`,
because its RGB channels copy slot 0.  Here the fragment record is
slot-constant (so the swapped record coincides with the original) while
the two slot colors differ; the red channel flips from 0 to 1. -/
theorem C5_counterexample :
    sigmoid_alpha_blend (N := 1) (H := 1) (W := 1) (K := 1)
      (fun _ _ _ k _ => if k = 0 then (1 : ℝ) else 0)
      ⟨fun _ _ _ _ => 0, fun _ _ _ _ => 0, fun _ _ _ _ _ => 0, fun _ _ _ _ => 0⟩
      ⟨1, 1, fun _ => 0⟩ 0 0 0 (Fin.castSucc 0) ≠
    sigmoid_alpha_blend (N := 1) (H := 1) (W := 1) (K := 1)
      (fun _ _ _ k _ => if k = 0 then (0 : ℝ) else 1)
      ⟨fun _ _ _ _ => 0, fun _ _ _ _ => 0, fun _ _ _ _ _ => 0, fun _ _ _ _ => 0⟩
      ⟨1, 1, fun _ => 0⟩ 0 0 0 (Fin.castSucc 0) := by
  simp only [sigmoid_alpha_blend, rgba_castSucc]
  norm_num

/-- C5 amended: permuting the K slots of a pixel's fragment record
jointly with its color entries leaves the whole `softmax_rgb_blend`
output unchanged, and leaves the alpha channel of `sigmoid_alpha_blend`
unchanged (its RGB channels copy slot 0, so they follow the permutation). -/
theorem C5_permutation_invariance (colors colors2 : Colors N H W K)
    (fragA fragB : Fragments N H W K) (blend_params : BlendParams)
    (znear zfar : ℝ) (n : Fin N) (h : Fin H) (w : Fin W)
    (σ : Equiv.Perm (Fin (K + 1)))
    (hp : ∀ k, fragB.pix_to_face n h w k = fragA.pix_to_face n h w (σ k))
    (hz : ∀ k, fragB.zbuf n h w k = fragA.zbuf n h w (σ k))
    (hd : ∀ k, fragB.dists n h w k = fragA.dists n h w (σ k))
    (hc : ∀ k c, colors2 n h w k c = colors n h w (σ k) c) :
    (∀ ch : Fin 4,
      softmax_rgb_blend colors2 fragB blend_params znear zfar n h w ch =
        softmax_rgb_blend colors fragA blend_params znear zfar n h w ch) ∧
    sigmoid_alpha_blend colors2 fragB blend_params n h w 3 =
      sigmoid_alpha_blend colors fragA blend_params n h w 3 := by
  have hmask : ∀ k, fragMask (fragB.pix_to_face n h w) k =
      fragMask (fragA.pix_to_face n h w) (σ k) := by
    intro k
    unfold fragMask
    rw [hp k]
  have hprob : ∀ k, prob_map blend_params (fragB.pix_to_face n h w)
      (fragB.dists n h w) k =
      prob_map blend_params (fragA.pix_to_face n h w) (fragA.dists n h w) (σ k) := by
    intro k
    unfold prob_map
    rw [hd k, hmask k]
  have halpha : alphaProd blend_params (fragB.pix_to_face n h w) (fragB.dists n h w) =
      alphaProd blend_params (fragA.pix_to_face n h w) (fragA.dists n h w) := by
    unfold alphaProd
    calc (∏ k, (1 - prob_map blend_params (fragB.pix_to_face n h w)
            (fragB.dists n h w) k)) =
        ∏ k, (1 - prob_map blend_params (fragA.pix_to_face n h w)
            (fragA.dists n h w) (σ k)) :=
          Finset.prod_congr rfl fun k _ => by rw [hprob k]
      _ = _ := Equiv.prod_comp σ fun k =>
          1 - prob_map blend_params (fragA.pix_to_face n h w) (fragA.dists n h w) k
  have hzinv : ∀ k, z_inv znear zfar (fragB.pix_to_face n h w) (fragB.zbuf n h w) k =
      z_inv znear zfar (fragA.pix_to_face n h w) (fragA.zbuf n h w) (σ k) := by
    intro k
    unfold z_inv
    rw [hz k, hmask k]
  have hzmax : z_inv_max znear zfar (fragB.pix_to_face n h w) (fragB.zbuf n h w) =
      z_inv_max znear zfar (fragA.pix_to_face n h w) (fragA.zbuf n h w) := by
    unfold z_inv_max
    congr 1
    calc Finset.univ.sup' Finset.univ_nonempty
          (z_inv znear zfar (fragB.pix_to_face n h w) (fragB.zbuf n h w)) =
        Finset.univ.sup' Finset.univ_nonempty
          (fun k => z_inv znear zfar (fragA.pix_to_face n h w)
            (fragA.zbuf n h w) (σ k)) :=
          Finset.sup'_congr _ rfl fun k _ => hzinv k
      _ = _ := sup'_perm σ _
  have hwe : ∀ k, weights_num blend_params znear zfar (fragB.pix_to_face n h w)
      (fragB.zbuf n h w) (fragB.dists n h w) k =
      weights_num blend_params znear zfar (fragA.pix_to_face n h w)
        (fragA.zbuf n h w) (fragA.dists n h w) (σ k) := by
    intro k
    unfold weights_num
    rw [hprob k, hzinv k, hzmax]
  have hdelta : delta blend_params znear zfar (fragB.pix_to_face n h w)
      (fragB.zbuf n h w) =
      delta blend_params znear zfar (fragA.pix_to_face n h w) (fragA.zbuf n h w) := by
    unfold delta
    rw [hzmax]
  have hdenom : denom blend_params znear zfar (fragB.pix_to_face n h w)
      (fragB.zbuf n h w) (fragB.dists n h w) =
      denom blend_params znear zfar (fragA.pix_to_face n h w)
        (fragA.zbuf n h w) (fragA.dists n h w) := by
    unfold denom
    rw [hdelta]
    congr 1
    calc (∑ k, weights_num blend_params znear zfar (fragB.pix_to_face n h w)
            (fragB.zbuf n h w) (fragB.dists n h w) k) =
        ∑ k, weights_num blend_params znear zfar (fragA.pix_to_face n h w)
            (fragA.zbuf n h w) (fragA.dists n h w) (σ k) :=
          Finset.sum_congr rfl fun k _ => hwe k
      _ = _ := Equiv.sum_comp σ fun k =>
          weights_num blend_params znear zfar (fragA.pix_to_face n h w)
            (fragA.zbuf n h w) (fragA.dists n h w) k
  have hnum : ∀ c : Fin 3,
      (∑ k, weights_num blend_params znear zfar (fragB.pix_to_face n h w)
          (fragB.zbuf n h w) (fragB.dists n h w) k * colors2 n h w k c) =
      ∑ k, weights_num blend_params znear zfar (fragA.pix_to_face n h w)
          (fragA.zbuf n h w) (fragA.dists n h w) k * colors n h w k c := by
    intro c
    calc (∑ k, weights_num blend_params znear zfar (fragB.pix_to_face n h w)
            (fragB.zbuf n h w) (fragB.dists n h w) k * colors2 n h w k c) =
        ∑ k, weights_num blend_params znear zfar (fragA.pix_to_face n h w)
            (fragA.zbuf n h w) (fragA.dists n h w) (σ k) * colors n h w (σ k) c :=
          Finset.sum_congr rfl fun k _ => by rw [hwe k, hc k c]
      _ = _ := Equiv.sum_comp σ fun k =>
          weights_num blend_params znear zfar (fragA.pix_to_face n h w)
            (fragA.zbuf n h w) (fragA.dists n h w) k * colors n h w k c
  constructor
  · intro ch
    simp only [softmax_rgb_blend]
    have hrgb : (fun c =>
        ((∑ k, weights_num blend_params znear zfar (fragB.pix_to_face n h w)
            (fragB.zbuf n h w) (fragB.dists n h w) k * colors2 n h w k c) +
          delta blend_params znear zfar (fragB.pix_to_face n h w)
            (fragB.zbuf n h w) * blend_params.background_color c) /
        denom blend_params znear zfar (fragB.pix_to_face n h w)
          (fragB.zbuf n h w) (fragB.dists n h w)) = (fun c =>
        ((∑ k, weights_num blend_params znear zfar (fragA.pix_to_face n h w)
            (fragA.zbuf n h w) (fragA.dists n h w) k * colors n h w k c) +
          delta blend_params znear zfar (fragA.pix_to_face n h w)
            (fragA.zbuf n h w) * blend_params.background_color c) /
        denom blend_params znear zfar (fragA.pix_to_face n h w)
          (fragA.zbuf n h w) (fragA.dists n h w)) := by
      funext c
      rw [hnum c, hdelta, hdenom]
    rw [hrgb, halpha]
  · simp only [sigmoid_alpha_blend, rgba_alpha]
    unfold sigmoid_alpha_kernel
    congr 1
    calc (∏ k, (1 - if 0 ≤ fragB.pix_to_face n h w k then
            sigmoid (-(fragB.dists n h w k) / blend_params.sigma) else 0)) =
        ∏ k, (1 - if 0 ≤ fragA.pix_to_face n h w (σ k) then
            sigmoid (-(fragA.dists n h w (σ k)) / blend_params.sigma) else 0) :=
          Finset.prod_congr rfl fun k _ => by rw [hp k, hd k]
      _ = _ := Equiv.prod_comp σ fun k =>
          1 - if 0 ≤ fragA.pix_to_face n h w k then
            sigmoid (-(fragA.dists n h w k) / blend_params.sigma) else 0

/-- Witness for C5: the identity permutation on a concrete 1×1×1, two-slot
input satisfies all the permutation hypotheses. -/
theorem C5_permutation_invariance_witness :
    (∀ ch : Fin 4,
      softmax_rgb_blend (N := 1) (H := 1) (W := 1) (K := 1)
        (fun _ _ _ _ _ => (1 : ℝ))
        ⟨fun _ _ _ _ => 0, fun _ _ _ _ => 2, fun _ _ _ _ _ => 0, fun _ _ _ _ => 1⟩
        ⟨1, 1, fun _ => 0⟩ 1 5 0 0 0 ch =
      softmax_rgb_blend (N := 1) (H := 1) (W := 1) (K := 1)
        (fun _ _ _ _ _ => (1 : ℝ))
        ⟨fun _ _ _ _ => 0, fun _ _ _ _ => 2, fun _ _ _ _ _ => 0, fun _ _ _ _ => 1⟩
        ⟨1, 1, fun _ => 0⟩ 1 5 0 0 0 ch) ∧
    sigmoid_alpha_blend (N := 1) (H := 1) (W := 1) (K := 1)
      (fun _ _ _ _ _ => (1 : ℝ))
      ⟨fun _ _ _ _ => 0, fun _ _ _ _ => 2, fun _ _ _ _ _ => 0, fun _ _ _ _ => 1⟩
      ⟨1, 1, fun _ => 0⟩ 0 0 0 3 =
    sigmoid_alpha_blend (N := 1) (H := 1) (W := 1) (K := 1)
      (fun _ _ _ _ _ => (1 : ℝ))
      ⟨fun _ _ _ _ => 0, fun _ _ _ _ => 2, fun _ _ _ _ _ => 0, fun _ _ _ _ => 1⟩
      ⟨1, 1, fun _ => 0⟩ 0 0 0 3 :=
  C5_permutation_invariance (N := 1) (H := 1) (W := 1) (K := 1)
    (fun _ _ _ _ _ => (1 : ℝ)) (fun _ _ _ _ _ => (1 : ℝ))
    ⟨fun _ _ _ _ => 0, fun _ _ _ _ => 2, fun _ _ _ _ _ => 0, fun _ _ _ _ => 1⟩
    ⟨fun _ _ _ _ => 0, fun _ _ _ _ => 2, fun _ _ _ _ _ => 0, fun _ _ _ _ => 1⟩
    ⟨1, 1, fun _ => 0⟩ 1 5 0 0 0 (Equiv.refl _)
    (fun _ => rfl) (fun _ => rfl) (fun _ => rfl) (fun _ _ => rfl)

end P3D
